import Mathlib

/-!
Verification of the openclaw-desktop release / offline-distribution pipeline.

The definitions below are shallow embeddings of:
  * `scripts/generate-updater-manifest.mjs` (release-manifest generator),
  * the bundle-builder script (`openclawBridge` build half: `parseVersion`,
    `versionGte`, `resolveBundledNodeRuntime`, `main`),
  * the offline end-to-end validator (`waitForHttp`, `main`).

The filesystem is modelled as a list of regular files in directory-traversal
order; each entry carries its path and its textual content.  External
commands that the scripts spawn are modelled by boolean outcome fields in an
environment record, and the scripts' control flow is reproduced faithfully
around those outcomes.
-/

namespace OpenclawDesktop

/-- A regular file of the assets directory: full path plus textual content. -/
structure FsFile where
  path : String
  content : String
deriving DecidableEq

/-- `fs.existsSync p && fs.statSync(p).isFile()` over the modelled file list. -/
def findFile (fs : List FsFile) (p : String) : Option FsFile :=
  fs.find? (fun f => f.path = p)

/-- `name.endsWith suffixStr` (JS `String.prototype.endsWith`). -/
def strEndsWith (s pat : String) : Bool :=
  pat.data.isSuffixOf s.data

/-- `name.includes pat` (JS `String.prototype.includes`). -/
def listContains (pat : List Char) : List Char → Bool
  | [] => pat.isPrefixOf []
  | c :: cs => pat.isPrefixOf (c :: cs) || listContains pat cs

def strContains (s pat : String) : Bool :=
  listContains pat.data s.data

/-- A character matched by `[a-z0-9]` under the `i` flag, i.e. ASCII
alphanumeric.  The arch-token regexes require token boundaries to be
characters NOT of this class (or the string edges). -/
def isAsciiAlnum (c : Char) : Bool :=
  (('a' ≤ c && c ≤ 'z') || ('A' ≤ c && c ≤ 'Z') || ('0' ≤ c && c ≤ '9'))

/-- If `tok` is a prefix of `s`, return the remaining characters. -/
def matchTok : List Char → List Char → Option (List Char)
  | [], s => some s
  | _ :: _, [] => none
  | t :: ts, c :: cs => if c = t then matchTok ts cs else none

/-- `tok` matches at the current position with a valid right boundary
(`[^a-z0-9]|$`), and `prevOk` says the left boundary (`^|[^a-z0-9]`) held. -/
def boundedHere (prevOk : Bool) (tok s : List Char) : Bool :=
  prevOk &&
    match matchTok tok s with
    | some [] => true
    | some (c :: _) => !isAsciiAlnum c
    | none => false

/-- Scan `s` for an occurrence of `tok` bounded on both sides by
non-alphanumerics or the string edges — the meaning of
`/(^|[^a-z0-9])tok([^a-z0-9]|$)/i.test s` for a lowercase ASCII `tok`
applied to an already-lowercased `s`. -/
def hasBoundedToken (tok : List Char) : Bool → List Char → Bool
  | _, [] => false
  | prevOk, c :: cs =>
    boundedHere prevOk tok (c :: cs) || hasBoundedToken tok (!isAsciiAlnum c) cs

def testToken (s tok : String) : Bool :=
  hasBoundedToken tok.data true s.data

/-- `detectArch` of `generate-updater-manifest.mjs`. -/
def detectArch (lowerName : String) : Option String :=
  if testToken lowerName "aarch64" || testToken lowerName "arm64" then
    some "aarch64"
  else if testToken lowerName "x86_64" || testToken lowerName "x64" ||
      testToken lowerName "amd64" then
    some "x86_64"
  else if testToken lowerName "i686" || testToken lowerName "x86" then
    some "i686"
  else
    none

/-- `scoreCandidate` of `generate-updater-manifest.mjs`. -/
def scoreCandidate (lowerName : String) : Int :=
  (if strEndsWith lowerName ".app.tar.gz" then (300 : Int) else 0)
  + (if strEndsWith lowerName ".appimage" || strEndsWith lowerName ".appimage.tar.gz" then (300 : Int) else 0)
  + (if strContains lowerName "setup" && strEndsWith lowerName ".exe" then (300 : Int) else 0)
  + (if strEndsWith lowerName ".msi" then (260 : Int) else 0)
  + (if strEndsWith lowerName ".deb" then (240 : Int) else 0)
  + (if strEndsWith lowerName ".rpm" then (230 : Int) else 0)
  + (if strEndsWith lowerName ".nsis.zip" then (220 : Int) else 0)
  + (if strEndsWith lowerName ".msi.zip" then (210 : Int) else 0)
  - (if strContains lowerName "portable" then (100 : Int) else 0)

/-- The `isWin` suffix test of `detectTargets`. -/
def isWinName (lowerName : String) : Bool :=
  strEndsWith lowerName ".exe" || strEndsWith lowerName ".msi" ||
    strEndsWith lowerName ".nsis.zip" || strEndsWith lowerName ".msi.zip"

/-- The `isLinux` suffix test of `detectTargets`. -/
def isLinuxName (lowerName : String) : Bool :=
  strEndsWith lowerName ".appimage" || strEndsWith lowerName ".appimage.tar.gz" ||
    strEndsWith lowerName ".deb" || strEndsWith lowerName ".rpm"

/-- `detectTargets` of `generate-updater-manifest.mjs`. -/
def detectTargets (lowerName : String) : List String :=
  let arch := detectArch lowerName
  let isMac := strEndsWith lowerName ".app.tar.gz"
  let isWin := isWinName lowerName
  let isLinux := isLinuxName lowerName
  if !isMac && !isWin && !isLinux then []
  else if isMac then
    match arch with
    | some a => ["darwin-" ++ a]
    | none => ["darwin-x86_64", "darwin-aarch64"]
  else if isWin then ["windows-" ++ arch.getD "x86_64"]
  else if isLinux then ["linux-" ++ arch.getD "x86_64"]
  else []

/-- Whitespace for the purposes of JS `String.prototype.trim` (the
characters that occur in practice in signature files). -/
def isWs (c : Char) : Bool :=
  c = ' ' || c = Char.ofNat 9 || c = Char.ofNat 10 || c = Char.ofNat 13

/-- JS `String.prototype.trim`: strip leading and trailing whitespace. -/
def strTrim (s : String) : String :=
  String.mk (((s.data.dropWhile isWs).reverse.dropWhile isWs).reverse)

/-- `s.slice(0, -n)`: drop the last `n` characters. -/
def strDropRight (s : String) (n : Nat) : String :=
  String.mk (s.data.take (s.data.length - n))

/-- JS `String.prototype.startsWith`. -/
def strStartsWith (s pat : String) : Bool :=
  pat.data.isPrefixOf s.data

/-- JS `String.prototype.toLowerCase` (ASCII case folding). -/
def strToLower (s : String) : String :=
  String.mk (s.data.map Char.toLower)

/-- The last `/`-separated segment of a path, `path.basename`. -/
def basenameAux : List Char → List Char → List Char
  | cur, [] => cur.reverse
  | _, '/' :: rest => basenameAux [] rest
  | cur, c :: rest => basenameAux (c :: cur) rest

def basename (p : String) : String :=
  String.mk (basenameAux [] p.data)

/-- An entry of the `bestByTarget` map. -/
structure Candidate where
  target : String
  fileName : String
  artifactPath : String
  signature : String
  score : Int
deriving DecidableEq

/-- `Map.get` over the insertion-ordered association list modelling a JS `Map`. -/
def mapGet : List (String × Candidate) → String → Option Candidate
  | [], _ => none
  | (k', v') :: rest, k => if k' = k then some v' else mapGet rest k

/-- `Map.set`: replace in place if the key is present, else append. -/
def mapSet : List (String × Candidate) → String → Candidate → List (String × Candidate)
  | [], k, v => [(k, v)]
  | (k', v') :: rest, k, v =>
    if k' = k then (k, v) :: rest else (k', v') :: mapSet rest k v

/-- The body of the per-target update in the sig-file loop: keep the existing
entry unless the new candidate's score is strictly higher. -/
def insertBest (m : List (String × Candidate)) (target : String) (cand : Candidate) :
    List (String × Candidate) :=
  match mapGet m target with
  | none => mapSet m target cand
  | some existing =>
    if cand.score > existing.score then mapSet m target cand else m

/-- The candidates one `.sig` sidecar file contributes (one per detected
target), or `[]` when the loop body `continue`s: base artifact missing,
no target detected, or trimmed signature empty. -/
def candidatesOfSig (fs : List FsFile) (sf : FsFile) : List Candidate :=
  let artifactPath := strDropRight sf.path 4
  match findFile fs artifactPath with
  | none => []
  | some _ =>
    let fileName := basename artifactPath
    let lowerName := strToLower fileName
    let targets := detectTargets lowerName
    if targets.isEmpty then []
    else
      let signature := strTrim sf.content
      if signature = "" then []
      else
        let baseScore :=
          scoreCandidate lowerName + (if (detectArch lowerName).isSome then (20 : Int) else 0)
        targets.map (fun t =>
          { target := t, fileName := fileName, artifactPath := artifactPath,
            signature := signature, score := baseScore })

/-- One iteration of the `for (const sigPath of sigFiles)` loop. -/
def processSig (fs : List FsFile) (m : List (String × Candidate)) (sf : FsFile) :
    List (String × Candidate) :=
  (candidatesOfSig fs sf).foldl (fun m c => insertBest m c.target c) m

/-- `files.filter(p => p.endsWith ".sig")` in traversal order. -/
def sigEntries (fs : List FsFile) : List FsFile :=
  fs.filter (fun f => strEndsWith f.path ".sig")

/-- The `bestByTarget` map after the whole scan of the assets directory. -/
def bestByTarget (fs : List FsFile) : List (String × Candidate) :=
  (sigEntries fs).foldl (processSig fs) []

/-- All candidates of the scan, flattened in traversal order. -/
def allCandidates (fs : List FsFile) : List Candidate :=
  (sigEntries fs).flatMap (candidatesOfSig fs)

/-- Modelled from the spec (section 4.7): "the higher score wins; ties are
resolved by first-seen order".  `specBestCandidate t l` is the first
candidate for target `t` among those of maximal score in `l`.  `headMerge`
keeps the earlier candidate unless the later one scores strictly higher. -/
def headMerge (c : Candidate) : Option Candidate → Option Candidate
  | none => some c
  | some r => if r.score > c.score then some r else some c

def specBestCandidate (target : String) : List Candidate → Option Candidate
  | [] => none
  | c :: cs =>
    if c.target = target then headMerge c (specBestCandidate target cs)
    else specBestCandidate target cs

/-- Hex digit used by percent-encoding (uppercase). -/
def hexDigit (n : Nat) : Char :=
  if n < 10 then Char.ofNat (48 + n) else Char.ofNat (55 + n)

/-- UTF-8 byte sequence of one character. -/
def utf8Bytes (c : Char) : List Nat :=
  let n := c.toNat
  if n < 128 then [n]
  else if n < 2048 then [192 + n / 64, 128 + n % 64]
  else if n < 65536 then [224 + n / 4096, 128 + (n / 64) % 64, 128 + n % 64]
  else [240 + n / 262144, 128 + (n / 4096) % 64, 128 + (n / 64) % 64, 128 + n % 64]

/-- Characters `encodeURIComponent` leaves unescaped. -/
def isUriUnreserved (c : Char) : Bool :=
  isAsciiAlnum c || c ∈ ("-_.!~*()".data) || c = Char.ofNat 39

/-- JS `encodeURIComponent`. -/
def encodeURIComponent (s : String) : String :=
  String.mk (s.data.flatMap (fun c =>
    if isUriUnreserved c then [c]
    else (utf8Bytes c).flatMap (fun b => ['%', hexDigit (b / 16), hexDigit (b % 16)])))

/-- A `platforms` entry of the emitted `latest.json`. -/
structure PlatformEntry where
  signature : String
  url : String
deriving DecidableEq

/-- The release-download URL built for a winning candidate. -/
def assetUrl (githubRepo tagName fileName : String) : String :=
  "https://github.com/" ++ githubRepo ++ "/releases/download/" ++
    encodeURIComponent tagName ++ "/" ++ encodeURIComponent fileName

def platformEntryOf (githubRepo tagName : String) (c : Candidate) : PlatformEntry :=
  { signature := c.signature, url := assetUrl githubRepo tagName c.fileName }

/-- The `platforms` object: one entry per `bestByTarget` key, in map order. -/
def platformsOf (best : List (String × Candidate)) (githubRepo tagName : String) :
    List (String × PlatformEntry) :=
  best.map (fun e => (e.1, platformEntryOf githubRepo tagName e.2))

def lookupPlatform : List (String × PlatformEntry) → String → Option PlatformEntry
  | [], _ => none
  | (k', v') :: rest, k => if k' = k then some v' else lookupPlatform rest k

/-- The exact diagnostic thrown when the scan classified zero candidates. -/
def noArtifactsMsg : String :=
  "No signed updater artifacts found. Ensure `bundle.createUpdaterArtifacts` is enabled and TAURI_SIGNING_PRIVATE_KEY is set in CI."

/-- The emitted `latest.json` document. -/
structure UpdaterManifest where
  version : String
  notes : String
  pub_date : String
  platforms : List (String × PlatformEntry)
deriving DecidableEq

/-- The generator's tail: build `bestByTarget`, fail if it is empty, else
assemble the manifest that `writeFileSync` then persists.  `now` stands for
`new Date().toISOString()`.  An `Except.error` models the thrown error
(non-zero exit before any write of `latest.json`). -/
def generateManifest (now : String) (fs : List FsFile) (tagNameArg githubRepoArg : String) :
    Except String UpdaterManifest :=
  let tagName := strTrim tagNameArg
  let githubRepo := strTrim githubRepoArg
  let version := if strStartsWith tagName "v" then String.mk (tagName.data.drop 1) else tagName
  let best := bestByTarget fs
  if best.isEmpty then .error noArtifactsMsg
  else
    .ok { version := version, notes := "Release " ++ tagName, pub_date := now,
          platforms := platformsOf best githubRepo tagName }

/-! ## Bundle builder: version parsing and runtime resolution -/

/-- The parsed `MAJOR.MINOR.PATCH` triple. -/
structure Version where
  major : Nat
  minor : Nat
  patch : Nat
deriving DecidableEq

def isDigit (c : Char) : Bool := '0' ≤ c && c ≤ '9'

def digitsToNat (ds : List Char) : Nat :=
  ds.foldl (fun n c => n * 10 + (c.toNat - 48)) 0

/-- The `\d+\.\d+\.\d+` part of the version regex, after the optional `v`
has been handled: three maximal nonempty digit runs separated by dots;
anything may follow the third run. -/
def parseVersionBody (cs : List Char) : Option Version :=
  let p1 := cs.span isDigit
  if p1.1.isEmpty then none
  else
    match p1.2 with
    | '.' :: r2 =>
      let p2 := r2.span isDigit
      if p2.1.isEmpty then none
      else
        match p2.2 with
        | '.' :: r4 =>
          let p3 := r4.span isDigit
          if p3.1.isEmpty then none
          else some { major := digitsToNat p1.1, minor := digitsToNat p2.1,
                      patch := digitsToNat p3.1 }
        | _ => none
    | _ => none

/-- The `v?` of the regex: consume one leading `v` if present. -/
def stripV : List Char → List Char
  | 'v' :: rest => rest
  | cs => cs

/-- `parseVersion` of the bundle builder:
`String(v).trim().match(/^v?(\d+)\.(\d+)\.(\d+)/)`. -/
def parseVersion (v : String) : Option Version :=
  parseVersionBody (stripV (strTrim v).data)

/-- `versionGte` of the bundle builder: integer-lexicographic `>=`. -/
def versionGte (left right : String) : Bool :=
  match parseVersion left, parseVersion right with
  | some a, some b =>
    if a.major ≠ b.major then a.major > b.major
    else if a.minor ≠ b.minor then a.minor > b.minor
    else a.patch ≥ b.patch
  | _, _ => false

def OPENCLAW_MIN_NODE : String := "22.12.0"

/-- The runtime descriptor `resolveBundledNodeRuntime` returns. -/
structure NodeRuntime where
  nodePath : String
  nodeVersion : String
  nodeSource : String
deriving DecidableEq

/-- The environment `resolveBundledNodeRuntime` observes: the
`OPENCLAW_BUNDLE_NODE` override (if set to a non-empty value), whether that
path exists, the version each runtime reports via `node -v`, and whether the
provisioned executable lands where `ensureFile` expects it. -/
structure RuntimeEnv where
  customNode : Option String
  customNodeExists : Bool
  customNodeVersion : String
  bundledNodePath : String
  bundledNodeExists : Bool
  bundledNodeVersion : String
deriving DecidableEq

/-- The provisioning branch: `npm install node@MIN`, `ensureFile`, re-check
the reported version, fatal error if it still fails the minimum. -/
def provisionNode (env : RuntimeEnv) : Except String NodeRuntime :=
  if !env.bundledNodeExists then
    .error ("bundled node runtime not found: " ++ env.bundledNodePath)
  else if versionGte env.bundledNodeVersion OPENCLAW_MIN_NODE then
    .ok { nodePath := env.bundledNodePath, nodeVersion := env.bundledNodeVersion,
          nodeSource := "npm:node@" ++ OPENCLAW_MIN_NODE }
  else
    .error ("bundled node " ++ env.bundledNodeVersion ++ " does not satisfy >=" ++
      OPENCLAW_MIN_NODE)

/-- `resolveBundledNodeRuntime`: accept the override only when it exists and
its reported version passes `versionGte`; otherwise fall through to
provisioning. -/
def resolveBundledNodeRuntime (env : RuntimeEnv) : Except String NodeRuntime :=
  match env.customNode with
  | some p =>
    if env.customNodeExists && versionGte env.customNodeVersion OPENCLAW_MIN_NODE then
      .ok { nodePath := p, nodeVersion := env.customNodeVersion,
            nodeSource := "env:OPENCLAW_BUNDLE_NODE" }
    else provisionNode env
  | none => provisionNode env

/-! ## Bundle builder: `main` control flow and temporary-resource lifetimes -/

def exceptIsOk {ε α : Type} : Except ε α → Bool
  | .ok _ => true
  | .error _ => false

/-- Outcomes of the external steps `main` runs, in program order. -/
structure BuildEnv where
  skipBundlePrep : Bool
  packOk : Bool
  runtimeOk : Bool
  skipVerify : Bool
  verifyRunOk : Bool
deriving DecidableEq

/-- Which temporary resources exist or were released when `main` returns. -/
structure BuildState where
  tempDirCreated : Bool
  tempDirRemoved : Bool
  packedCleanupRan : Bool
  verifyCopyCreated : Bool
  verifyCopyRemoved : Bool
deriving DecidableEq

/-- The builder's `main`, linearized over the step outcomes of `env`.  A
thrown error propagates to `main().catch`, skipping every statement after
the throwing one — in particular the `fsp.rm` calls, which the source
places after the fallible steps rather than in `finally` blocks. -/
def mainBuild (env : BuildEnv) : Except String Unit × BuildState :=
  if env.skipBundlePrep then
    (.ok (), ⟨false, false, false, false, false⟩)
  else
    let s0 : BuildState := ⟨true, false, false, false, false⟩
    if !env.packOk then (.error "npm pack failed", s0)
    else if !env.runtimeOk then (.error "node runtime resolution failed", s0)
    else
      let s1 : BuildState := { s0 with packedCleanupRan := true }
      if env.skipVerify then
        (.ok (), { s1 with tempDirRemoved := true })
      else
        let s2 : BuildState := { s1 with verifyCopyCreated := true }
        if !env.verifyRunOk then
          (.error "bundled openclaw --version failed", s2)
        else
          (.ok (), { s2 with verifyCopyRemoved := true, tempDirRemoved := true })

/-! ## Offline end-to-end validator -/

/-- `waitForHttp`'s polling loop.  `ok i` is whether the `i`-th `fetch`
returns an `ok` response, `dur i` how many milliseconds that fetch takes;
each miss is followed by `sleep 1000`. -/
def waitLoop (ok : Nat → Bool) (dur : Nat → Nat) (deadline : Nat) :
    Nat → Nat → Bool
  | now, i =>
    if now < deadline then
      if ok i then true
      else waitLoop ok dur deadline (now + dur i + 1000) (i + 1)
    else false
termination_by now => deadline - now
decreasing_by omega

/-- `waitForHttp url timeoutMs`, with time measured from the call. -/
def waitForHttp (ok : Nat → Bool) (dur : Nat → Nat) (timeoutMs : Nat) : Bool :=
  waitLoop ok dur timeoutMs 0 0

/-- Outcomes of the validator's external steps, in program order.  The first
`onboard` attempt either succeeds, or fails with a message that may or may
not contain "OAuth requires interactive mode"; only in the latter case is
the `auth-choice=skip` fallback attempted. -/
structure ValidatorEnv where
  authOk : Bool
  toolsOk : Bool
  installOk : Bool
  setupOk : Bool
  onboardOk : Bool
  onboardInteractiveReject : Bool
  onboardFallbackOk : Bool
  pollOk : Nat → Bool
  pollDur : Nat → Nat

/-- Lifecycle facts about the validator's temporary home and gateway child. -/
structure ValidatorState where
  tempCreated : Bool
  tempRemoved : Bool
  gatewaySpawned : Bool
  gatewayKilled : Bool
deriving DecidableEq

/-- The validator's `main`: auth and bundled-tool checks run before the
ephemeral directory is created; install, setup and onboarding run after it;
only the gateway polling phase sits inside `try ... finally kill; rm`. -/
def mainValidator (env : ValidatorEnv) : Except String Unit × ValidatorState :=
  if !env.authOk then (.error "local codex auth missing", ⟨false, false, false, false⟩)
  else if !env.toolsOk then (.error "bundled tools missing", ⟨false, false, false, false⟩)
  else
    let s0 : ValidatorState := ⟨true, false, false, false⟩
    if !env.installOk then (.error "offline install failed", s0)
    else if !env.setupOk then (.error "setup failed", s0)
    else if !(env.onboardOk || (env.onboardInteractiveReject && env.onboardFallbackOk)) then
      (.error "onboard failed", s0)
    else
      let s1 : ValidatorState := { s0 with gatewaySpawned := true }
      let ready := waitForHttp env.pollOk env.pollDur 90000
      let sEnd : ValidatorState := { s1 with gatewayKilled := true, tempRemoved := true }
      if ready then (.ok (), sEnd)
      else (.error "official local web is not reachable", sEnd)

/-- A candidate correctly linked to its own artifact: some sidecar file of
the scanned tree is exactly the candidate's `artifactPath` plus the `.sig`
suffix, the artifact itself exists, the candidate's `fileName` is the
artifact's basename, and the candidate's signature is that sidecar's
trimmed, non-empty content. -/
def GoodCand (fs : List FsFile) (c : Candidate) : Prop :=
  ∃ sf ∈ fs, sf.path = c.artifactPath ++ ".sig"
    ∧ strEndsWith sf.path ".sig" = true
    ∧ (findFile fs c.artifactPath).isSome = true
    ∧ c.fileName = basename c.artifactPath
    ∧ c.signature = strTrim sf.content
    ∧ c.signature ≠ ""

/-! ## Lemmas about the selection map -/

/-- Result of one `insertBest` at its own key: keep the incumbent unless the
challenger scores strictly higher. -/
def keep (e : Option Candidate) (c : Candidate) : Option Candidate :=
  match e with
  | none => some c
  | some x => if c.score > x.score then some c else some x

/-- Combining an incumbent with the best of a later batch. -/
def mergeOpt (e b : Option Candidate) : Option Candidate :=
  match e, b with
  | e, none => e
  | none, some r => some r
  | some x, some r => if r.score > x.score then some r else some x

theorem mapGet_mapSet (m : List (String × Candidate)) (k : String) (v : Candidate)
    (t : String) :
    mapGet (mapSet m k v) t = if k = t then some v else mapGet m t := by
  induction m with
  | nil => simp [mapSet, mapGet]
  | cons e rest ih =>
    obtain ⟨k', v'⟩ := e
    by_cases hk : k' = k
    · subst hk
      by_cases ht : k' = t <;> simp [mapSet, mapGet, ht]
    · by_cases ht : k' = t
      · subst ht
        have hkt : ¬ k = k' := fun h => hk h.symm
        simp [mapSet, hk, mapGet, hkt]
      · simp [mapSet, hk, mapGet, ht, ih]

theorem mapGet_insertBest (m : List (String × Candidate)) (k : String) (c : Candidate)
    (t : String) :
    mapGet (insertBest m k c) t = if k = t then keep (mapGet m k) c else mapGet m t := by
  unfold insertBest
  cases hmk : mapGet m k with
  | none =>
    rw [mapGet_mapSet]
    by_cases ht : k = t <;> simp [ht, keep, hmk]
  | some x =>
    by_cases hs : c.score > x.score
    · simp only [hs, ite_true]
      rw [mapGet_mapSet]
      by_cases ht : k = t <;> simp [ht, keep, hmk, hs]
    · simp only [hs, ite_false]
      by_cases ht : k = t
      · subst ht
        simp [keep, hs, hmk]
      · simp [ht]

theorem mergeOpt_keep (e b : Option Candidate) (c : Candidate) :
    mergeOpt (keep e c) b = mergeOpt e (headMerge c b) := by
  cases e <;> cases b <;>
    simp only [keep, headMerge, mergeOpt] <;>
    split_ifs <;>
    simp only [mergeOpt] <;>
    split_ifs <;>
    first | rfl | omega

/-- Folding `insertBest` over a batch of candidates computes, at every
target, the spec-side selection merged with the incumbent. -/
theorem mapGet_foldl_insertBest (cands : List Candidate) :
    ∀ (m : List (String × Candidate)) (t : String),
      mapGet (cands.foldl (fun m c => insertBest m c.target c) m) t
        = mergeOpt (mapGet m t) (specBestCandidate t cands) := by
  induction cands with
  | nil =>
    intro m t
    cases h : mapGet m t <;> simp [mergeOpt, specBestCandidate, h]
  | cons c cs ih =>
    intro m t
    simp only [List.foldl_cons]
    rw [ih, mapGet_insertBest]
    by_cases ht : c.target = t
    · subst ht
      simp only [specBestCandidate, ite_true, if_pos rfl]
      exact mergeOpt_keep _ _ _
    · simp [specBestCandidate, ht]

theorem foldl_processSig_flatMap (fs : List FsFile) (sigs : List FsFile) :
    ∀ m, sigs.foldl (processSig fs) m
      = (sigs.flatMap (candidatesOfSig fs)).foldl
          (fun m c => insertBest m c.target c) m := by
  induction sigs with
  | nil => intro m; rfl
  | cons s ss ih =>
    intro m
    simp only [List.foldl_cons, List.flatMap_cons, List.foldl_append]
    exact ih _

/-- `bestByTarget` is the `insertBest` fold over all candidates in
traversal order. -/
theorem bestByTarget_eq_fold (fs : List FsFile) :
    bestByTarget fs
      = (allCandidates fs).foldl (fun m c => insertBest m c.target c) [] := by
  unfold bestByTarget allCandidates
  exact foldl_processSig_flatMap fs (sigEntries fs) []

theorem keys_mem_mapSet (m : List (String × Candidate)) (k : String) (v : Candidate)
    (x : String) (hx : x ∈ (mapSet m k v).map Prod.fst) :
    x = k ∨ x ∈ m.map Prod.fst := by
  induction m with
  | nil => simpa [mapSet] using hx
  | cons e rest ih =>
    obtain ⟨k', v'⟩ := e
    by_cases hk : k' = k
    · subst hk
      simpa [mapSet] using hx
    · simp only [mapSet, if_neg hk, List.map_cons, List.mem_cons] at hx
      rcases hx with h | h
      · right; simp [h]
      · rcases ih h with h' | h'
        · left; exact h'
        · right; simp [h']

theorem keys_nodup_mapSet (m : List (String × Candidate)) (k : String) (v : Candidate)
    (hm : (m.map Prod.fst).Nodup) : ((mapSet m k v).map Prod.fst).Nodup := by
  induction m with
  | nil => simp [mapSet]
  | cons e rest ih =>
    obtain ⟨k', v'⟩ := e
    simp only [List.map_cons, List.nodup_cons] at hm
    by_cases hk : k' = k
    · subst hk
      simp only [mapSet, ite_true, List.map_cons, List.nodup_cons]
      exact ⟨hm.1, hm.2⟩
    · simp only [mapSet, if_neg hk, List.map_cons, List.nodup_cons]
      refine ⟨fun hmem => ?_, ih hm.2⟩
      rcases keys_mem_mapSet rest k v k' hmem with h | h
      · exact hk h
      · exact hm.1 h

theorem keys_nodup_insertBest (m : List (String × Candidate)) (k : String)
    (c : Candidate) (hm : (m.map Prod.fst).Nodup) :
    ((insertBest m k c).map Prod.fst).Nodup := by
  unfold insertBest
  cases mapGet m k with
  | none => exact keys_nodup_mapSet m k c hm
  | some x =>
    by_cases hs : c.score > x.score
    · simpa [hs] using keys_nodup_mapSet m k c hm
    · simpa [hs] using hm

theorem keys_nodup_foldl (cands : List Candidate) :
    ∀ m, (m.map Prod.fst).Nodup →
      ((cands.foldl (fun m c => insertBest m c.target c) m).map Prod.fst).Nodup := by
  induction cands with
  | nil => intro m hm; exact hm
  | cons c cs ih =>
    intro m hm
    simp only [List.foldl_cons]
    exact ih _ (keys_nodup_insertBest m c.target c hm)


theorem mergeOpt_none_left (b : Option Candidate) : mergeOpt none b = b := by
  cases b <;> rfl

theorem lookupPlatform_platformsOf (best : List (String × Candidate))
    (repo tag : String) : ∀ t,
    lookupPlatform (platformsOf best repo tag) t
      = (mapGet best t).map (platformEntryOf repo tag) := by
  induction best with
  | nil => intro t; rfl
  | cons e rest ih =>
    intro t
    obtain ⟨k, c⟩ := e
    by_cases h : k = t
    · simp [platformsOf, lookupPlatform, mapGet, h]
    · simp only [platformsOf, List.map_cons, lookupPlatform, mapGet, if_neg h]
      simpa [platformsOf] using ih t

/-- Two suffix strings neither of which is a suffix of the other can never
both be suffixes of the same name. -/
theorem not_ends_of_ends (name a b : String) (ha : strEndsWith name a = true)
    (hab : a.data.isSuffixOf b.data = false) (hba : b.data.isSuffixOf a.data = false) :
    strEndsWith name b = false := by
  by_contra hb
  rw [Bool.not_eq_false] at hb
  unfold strEndsWith at ha hb
  have ha' : a.data <:+ name.data := List.isSuffixOf_iff_suffix.mp ha
  have hb' : b.data <:+ name.data := List.isSuffixOf_iff_suffix.mp hb
  rcases List.suffix_or_suffix_of_suffix ha' hb' with hs | hs
  · rw [← List.isSuffixOf_iff_suffix] at hs
    rw [hab] at hs
    exact Bool.false_ne_true hs
  · rw [← List.isSuffixOf_iff_suffix] at hs
    rw [hba] at hs
    exact Bool.false_ne_true hs


/-! ## Claim theorems -/

/-- C1: for every assets directory, the generator emits at most one
`platforms` entry per target (keys of the emitted map are nodup), an entry
exists for a target exactly when the scan produced at least one valid signed
candidate for it, and the retained candidate is `specBestCandidate`: the
first-encountered candidate of strictly maximal score, so a strictly higher
score wins regardless of order and ties go to the earlier candidate in
directory-traversal order. -/
theorem bestByTarget_selects_spec_best (fs : List FsFile)
    (githubRepo tagName t : String) :
    ((platformsOf (bestByTarget fs) githubRepo tagName).map Prod.fst).Nodup
    ∧ mapGet (bestByTarget fs) t = specBestCandidate t (allCandidates fs)
    ∧ lookupPlatform (platformsOf (bestByTarget fs) githubRepo tagName) t
        = (specBestCandidate t (allCandidates fs)).map (platformEntryOf githubRepo tagName) := by
  have hget : mapGet (bestByTarget fs) t = specBestCandidate t (allCandidates fs) := by
    rw [bestByTarget_eq_fold, mapGet_foldl_insertBest]
    exact mergeOpt_none_left _
  refine ⟨?_, hget, ?_⟩
  · have hkeys : (platformsOf (bestByTarget fs) githubRepo tagName).map Prod.fst
        = (bestByTarget fs).map Prod.fst := by
      simp [platformsOf, List.map_map]
    rw [hkeys, bestByTarget_eq_fold]
    exact keys_nodup_foldl _ [] (by simp)
  · rw [lookupPlatform_platformsOf, hget]

/-- C2 counterexample: `app.exe` contains no "setup" yet is classified as a
windows target, refuting "a windows target only when the lowercased name
contains setup". -/
theorem exe_without_setup_counterexample :
    detectTargets "app.exe" = ["windows-x86_64"]
    ∧ strContains "app.exe" "setup" = false := by
  constructor <;> decide

/-- C2 amended: every `.exe` artifact is assigned a windows target, with or
without "setup" in the name ("setup" only contributes +300 to the score);
a file matching none of the OS suffix checks produces no candidate. -/
theorem exe_classification (lowerName : String) :
    (strEndsWith lowerName ".exe" = true →
      detectTargets lowerName = ["windows-" ++ (detectArch lowerName).getD "x86_64"])
    ∧ (strEndsWith lowerName ".app.tar.gz" = false → isWinName lowerName = false →
        isLinuxName lowerName = false → detectTargets lowerName = []) := by
  constructor
  · intro h
    have hmac : strEndsWith lowerName ".app.tar.gz" = false :=
      not_ends_of_ends lowerName ".exe" ".app.tar.gz" h (by decide) (by decide)
    have hwin : isWinName lowerName = true := by simp [isWinName, h]
    simp [detectTargets, hmac, hwin]
  · intro h1 h2 h3
    simp [detectTargets, h1, h2, h3]

/-- C2 amended, witness at concrete inputs. -/
theorem exe_classification_witness :
    detectTargets "installer-setup.exe" = ["windows-x86_64"]
    ∧ detectTargets "readme.txt" = [] :=
  ⟨by
    have h := (exe_classification "installer-setup.exe").1 (by decide)
    simpa using h,
   (exe_classification "readme.txt").2 (by decide) (by decide) (by decide)⟩

/-- C3: with no architecture token, a `.app.tar.gz` file yields both darwin
targets for the same file, while windows and linux files default to
`x86_64`, yielding exactly one target. -/
theorem missing_arch_defaults (lowerName : String)
    (hnone : detectArch lowerName = none) :
    (strEndsWith lowerName ".app.tar.gz" = true →
      detectTargets lowerName = ["darwin-x86_64", "darwin-aarch64"])
    ∧ (isWinName lowerName = true → detectTargets lowerName = ["windows-x86_64"])
    ∧ (isLinuxName lowerName = true → detectTargets lowerName = ["linux-x86_64"]) := by
  refine ⟨?_, ?_, ?_⟩
  · intro h
    simp [detectTargets, h, hnone]
  · intro h
    have hor : strEndsWith lowerName ".exe" = true ∨ strEndsWith lowerName ".msi" = true
        ∨ strEndsWith lowerName ".nsis.zip" = true
        ∨ strEndsWith lowerName ".msi.zip" = true := by
      simpa [isWinName, or_assoc] using h
    have hmac : strEndsWith lowerName ".app.tar.gz" = false := by
      rcases hor with h1 | h1 | h1 | h1
      · exact not_ends_of_ends lowerName ".exe" ".app.tar.gz" h1 (by decide) (by decide)
      · exact not_ends_of_ends lowerName ".msi" ".app.tar.gz" h1 (by decide) (by decide)
      · exact not_ends_of_ends lowerName ".nsis.zip" ".app.tar.gz" h1 (by decide) (by decide)
      · exact not_ends_of_ends lowerName ".msi.zip" ".app.tar.gz" h1 (by decide) (by decide)
    simp [detectTargets, hmac, h, hnone]
  · intro h
    have hor : strEndsWith lowerName ".appimage" = true
        ∨ strEndsWith lowerName ".appimage.tar.gz" = true
        ∨ strEndsWith lowerName ".deb" = true
        ∨ strEndsWith lowerName ".rpm" = true := by
      simpa [isLinuxName, or_assoc] using h
    have hexcl : strEndsWith lowerName ".app.tar.gz" = false
        ∧ strEndsWith lowerName ".exe" = false
        ∧ strEndsWith lowerName ".msi" = false
        ∧ strEndsWith lowerName ".nsis.zip" = false
        ∧ strEndsWith lowerName ".msi.zip" = false := by
      rcases hor with h1 | h1 | h1 | h1
      · exact ⟨not_ends_of_ends lowerName ".appimage" ".app.tar.gz" h1 (by decide) (by decide),
          not_ends_of_ends lowerName ".appimage" ".exe" h1 (by decide) (by decide),
          not_ends_of_ends lowerName ".appimage" ".msi" h1 (by decide) (by decide),
          not_ends_of_ends lowerName ".appimage" ".nsis.zip" h1 (by decide) (by decide),
          not_ends_of_ends lowerName ".appimage" ".msi.zip" h1 (by decide) (by decide)⟩
      · exact ⟨not_ends_of_ends lowerName ".appimage.tar.gz" ".app.tar.gz" h1 (by decide) (by decide),
          not_ends_of_ends lowerName ".appimage.tar.gz" ".exe" h1 (by decide) (by decide),
          not_ends_of_ends lowerName ".appimage.tar.gz" ".msi" h1 (by decide) (by decide),
          not_ends_of_ends lowerName ".appimage.tar.gz" ".nsis.zip" h1 (by decide) (by decide),
          not_ends_of_ends lowerName ".appimage.tar.gz" ".msi.zip" h1 (by decide) (by decide)⟩
      · exact ⟨not_ends_of_ends lowerName ".deb" ".app.tar.gz" h1 (by decide) (by decide),
          not_ends_of_ends lowerName ".deb" ".exe" h1 (by decide) (by decide),
          not_ends_of_ends lowerName ".deb" ".msi" h1 (by decide) (by decide),
          not_ends_of_ends lowerName ".deb" ".nsis.zip" h1 (by decide) (by decide),
          not_ends_of_ends lowerName ".deb" ".msi.zip" h1 (by decide) (by decide)⟩
      · exact ⟨not_ends_of_ends lowerName ".rpm" ".app.tar.gz" h1 (by decide) (by decide),
          not_ends_of_ends lowerName ".rpm" ".exe" h1 (by decide) (by decide),
          not_ends_of_ends lowerName ".rpm" ".msi" h1 (by decide) (by decide),
          not_ends_of_ends lowerName ".rpm" ".nsis.zip" h1 (by decide) (by decide),
          not_ends_of_ends lowerName ".rpm" ".msi.zip" h1 (by decide) (by decide)⟩
    obtain ⟨e1, e2, e3, e4, e5⟩ := hexcl
    have hwin : isWinName lowerName = false := by simp [isWinName, e2, e3, e4, e5]
    simp [detectTargets, e1, hwin, h, hnone]

/-- C3 witness at concrete inputs. -/
theorem missing_arch_defaults_witness :
    detectTargets "app-1.2.3.app.tar.gz" = ["darwin-x86_64", "darwin-aarch64"]
    ∧ detectTargets "app.msi" = ["windows-x86_64"]
    ∧ detectTargets "app.rpm" = ["linux-x86_64"] :=
  ⟨(missing_arch_defaults "app-1.2.3.app.tar.gz" (by decide)).1 (by decide),
   (missing_arch_defaults "app.msi" (by decide)).2.1 (by decide),
   (missing_arch_defaults "app.rpm" (by decide)).2.2 (by decide)⟩

/-- C4 -/
theorem versionGte_integer_lex :
    (∀ cs : List Char, parseVersionBody (stripV ('v' :: cs)) = parseVersionBody cs)
    ∧ parseVersion "v22.12.0-rc.1" = some ⟨22, 12, 0⟩
    ∧ (∀ (l r : String) (a b : Version), parseVersion l = some a → parseVersion r = some b →
        (versionGte l r = true ↔
          (a.major > b.major ∨ (a.major = b.major ∧
            (a.minor > b.minor ∨ (a.minor = b.minor ∧ a.patch ≥ b.patch))))))
    ∧ versionGte "22.11.9" "22.12.0" = false
    ∧ (∀ env : RuntimeEnv, env.customNode = none →
        versionGte env.bundledNodeVersion OPENCLAW_MIN_NODE = false →
        ∃ msg, resolveBundledNodeRuntime env = .error msg) := by
  refine ⟨?_, by decide, ?_, by decide, ?_⟩
  · intro cs; rfl
  · intro l r a b h1 h2
    simp only [versionGte, h1, h2]
    by_cases hmaj : a.major = b.major
    · by_cases hmin : a.minor = b.minor
      · simp [hmaj, hmin]
      · simp [hmaj, hmin]
    · simp [hmaj]
  · intro env h1 h2
    cases hbe : env.bundledNodeExists
    · exact ⟨"bundled node runtime not found: " ++ env.bundledNodePath,
        by simp [resolveBundledNodeRuntime, h1, provisionNode, hbe]⟩
    · exact ⟨"bundled node " ++ env.bundledNodeVersion ++ " does not satisfy >=" ++
          OPENCLAW_MIN_NODE,
        by simp [resolveBundledNodeRuntime, h1, provisionNode, hbe, h2]⟩

/-- C10 -/
theorem versionGte_fails_closed :
    (∀ l r : String, parseVersion l = none ∨ parseVersion r = none →
      versionGte l r = false)
    ∧ (∀ (env : RuntimeEnv) (p : String), env.customNode = some p →
        parseVersion env.customNodeVersion = none →
        resolveBundledNodeRuntime env = provisionNode env)
    ∧ (∀ (env : RuntimeEnv) (p : String) (out : NodeRuntime), env.customNode = some p →
        parseVersion env.customNodeVersion = none →
        resolveBundledNodeRuntime env = .ok out →
        out.nodeSource ≠ "env:OPENCLAW_BUNDLE_NODE") := by
  have part1 : ∀ l r : String, parseVersion l = none ∨ parseVersion r = none →
      versionGte l r = false := by
    intro l r h
    rcases h with h | h
    · cases hr : parseVersion r <;> simp [versionGte, h, hr]
    · cases hl : parseVersion l <;> simp [versionGte, h, hl]
  have part2 : ∀ (env : RuntimeEnv) (p : String), env.customNode = some p →
      parseVersion env.customNodeVersion = none →
      resolveBundledNodeRuntime env = provisionNode env := by
    intro env p hp hn
    have hfc : versionGte env.customNodeVersion OPENCLAW_MIN_NODE = false :=
      part1 _ _ (Or.inl hn)
    simp [resolveBundledNodeRuntime, hp, hfc]
  refine ⟨part1, part2, ?_⟩
  intro env p out hp hn hok
  rw [part2 env p hp hn] at hok
  unfold provisionNode at hok
  by_cases hbe : (!env.bundledNodeExists) = true
  · rw [if_pos hbe] at hok
    cases hok
  · rw [if_neg hbe] at hok
    by_cases hvg : versionGte env.bundledNodeVersion OPENCLAW_MIN_NODE = true
    · rw [if_pos hvg] at hok
      injection hok with h
      rw [← h]
      show ("npm:node@" ++ OPENCLAW_MIN_NODE : String) ≠ "env:OPENCLAW_BUNDLE_NODE"
      decide
    · rw [if_neg hvg] at hok
      cases hok


/-- C4 witness -/
theorem versionGte_integer_lex_witness :
    (versionGte "10.0.0" "9.0.0" = true ↔
      (10 > 9 ∨ (10 = 9 ∧ (0 > 0 ∨ (0 = 0 ∧ 0 ≥ 0)))))
    ∧ (∃ msg, resolveBundledNodeRuntime
        ⟨none, false, "", "/tmp/node", true, "22.11.9"⟩ = .error msg) :=
  ⟨versionGte_integer_lex.2.2.1 "10.0.0" "9.0.0" ⟨10, 0, 0⟩ ⟨9, 0, 0⟩ (by decide) (by decide),
   versionGte_integer_lex.2.2.2.2 ⟨none, false, "", "/tmp/node", true, "22.11.9"⟩ rfl (by decide)⟩

/-- C10 witness -/
theorem versionGte_fails_closed_witness :
    versionGte "not-a-version" "22.12.0" = false
    ∧ resolveBundledNodeRuntime ⟨some "/opt/node", true, "weird", "/tmp/node", true, "22.12.0"⟩
        = provisionNode ⟨some "/opt/node", true, "weird", "/tmp/node", true, "22.12.0"⟩ :=
  ⟨versionGte_fails_closed.1 "not-a-version" "22.12.0" (Or.inl (by decide)),
   versionGte_fails_closed.2.1 ⟨some "/opt/node", true, "weird", "/tmp/node", true, "22.12.0"⟩
     "/opt/node" rfl (by decide)⟩

theorem candidatesOfSig_skip_missing (fs : List FsFile) (sf : FsFile)
    (h : findFile fs (strDropRight sf.path 4) = none) :
    candidatesOfSig fs sf = [] := by
  simp [candidatesOfSig, h]

theorem candidatesOfSig_skip_empty (fs : List FsFile) (sf : FsFile)
    (h : strTrim sf.content = "") :
    candidatesOfSig fs sf = [] := by
  unfold candidatesOfSig
  cases hf : findFile fs (strDropRight sf.path 4) <;> simp [hf, h]

theorem candidatesOfSig_mem (fs : List FsFile) (sf : FsFile) (c : Candidate)
    (hc : c ∈ candidatesOfSig fs sf) :
    c.signature = strTrim sf.content ∧ c.signature ≠ ""
    ∧ (findFile fs (strDropRight sf.path 4)).isSome = true := by
  unfold candidatesOfSig at hc
  cases hf : findFile fs (strDropRight sf.path 4) with
  | none => simp [hf] at hc
  | some f =>
    simp only [hf] at hc
    by_cases ht : (detectTargets (strToLower (basename (strDropRight sf.path 4)))).isEmpty
    · simp [ht] at hc
    · simp only [ht, ite_false, Bool.false_eq_true] at hc
      by_cases hs : strTrim sf.content = ""
      · simp [hs] at hc
      · simp only [hs, ite_false] at hc
        obtain ⟨t, _, heq⟩ := List.mem_map.mp hc
        rw [← heq]
        exact ⟨rfl, hs, rfl⟩


/-- C6 -/
theorem sig_scanner_guards (fs : List FsFile) (m : List (String × Candidate)) (sf : FsFile) :
    (findFile fs (strDropRight sf.path 4) = none → processSig fs m sf = m)
    ∧ (strTrim sf.content = "" → processSig fs m sf = m)
    ∧ (∀ c ∈ candidatesOfSig fs sf,
        c.signature = strTrim sf.content ∧ c.signature ≠ ""
        ∧ (findFile fs (strDropRight sf.path 4)).isSome = true)
    ∧ (∀ g ∈ sigEntries fs, strEndsWith g.path ".sig" = true ∧ g ∈ fs) := by
  refine ⟨?_, ?_, ?_, ?_⟩
  · intro h
    simp [processSig, candidatesOfSig_skip_missing fs sf h]
  · intro h
    simp [processSig, candidatesOfSig_skip_empty fs sf h]
  · intro c hc
    exact candidatesOfSig_mem fs sf c hc
  · intro g hg
    have := List.mem_filter.mp hg
    exact ⟨this.2, this.1⟩

/-- C6 witness -/
theorem sig_scanner_guards_witness :
    processSig [⟨"a/App.msi", "x"⟩] [] ⟨"a/Other.msi.sig", "SIG"⟩ = []
    ∧ processSig [⟨"a/App.msi", "x"⟩, ⟨"a/App.msi.sig", "  "⟩] [] ⟨"a/App.msi.sig", "  "⟩ = [] :=
  ⟨(sig_scanner_guards [⟨"a/App.msi", "x"⟩] [] ⟨"a/Other.msi.sig", "SIG"⟩).1 (by decide),
   (sig_scanner_guards [⟨"a/App.msi", "x"⟩, ⟨"a/App.msi.sig", "  "⟩] []
      ⟨"a/App.msi.sig", "  "⟩).2.1 (by decide)⟩

theorem mem_mapSet_val (m : List (String × Candidate)) (k : String) (v : Candidate)
    (p : String × Candidate) (hp : p ∈ mapSet m k v) : p = (k, v) ∨ p ∈ m := by
  induction m with
  | nil => simpa [mapSet] using hp
  | cons e rest ih =>
    obtain ⟨k', v'⟩ := e
    by_cases hk : k' = k
    · subst hk
      rcases (by simpa [mapSet] using hp : p = (k', v) ∨ p ∈ rest) with h | h
      · exact Or.inl h
      · exact Or.inr (List.mem_cons_of_mem _ h)
    · rcases (by simpa [mapSet, hk] using hp : p = (k', v') ∨ p ∈ mapSet rest k v) with h | h
      · exact Or.inr (by simp [h])
      · rcases ih h with h' | h'
        · exact Or.inl h'
        · exact Or.inr (List.mem_cons_of_mem _ h')

theorem mem_insertBest (m : List (String × Candidate)) (k : String) (c : Candidate)
    (p : String × Candidate) (hp : p ∈ insertBest m k c) : p = (k, c) ∨ p ∈ m := by
  unfold insertBest at hp
  cases hmk : mapGet m k with
  | none =>
    simp only [hmk] at hp
    exact mem_mapSet_val m k c p hp
  | some x =>
    simp only [hmk] at hp
    by_cases hs : c.score > x.score
    · rw [if_pos hs] at hp
      exact mem_mapSet_val m k c p hp
    · rw [if_neg hs] at hp
      exact Or.inr hp

/-- Removing the 4-character ".sig" suffix and appending it back restores
the sidecar path. -/
theorem dropRight_append_sig (s : String) (h : strEndsWith s ".sig" = true) :
    strDropRight s 4 ++ ".sig" = s := by
  unfold strEndsWith at h
  obtain ⟨t, ht⟩ := List.isSuffixOf_iff_suffix.mp h
  apply String.ext
  rw [String.data_append]
  have hdata : (strDropRight s 4).data = s.data.take (s.data.length - 4) := rfl
  rw [hdata, ← ht]
  have h4 : (".sig".data).length = 4 := rfl
  have hlen : (t ++ ".sig".data).length - 4 = t.length := by
    rw [List.length_append, h4]
    omega
  rw [hlen, List.take_left]

theorem candidatesOfSig_fields (fs : List FsFile) (sf : FsFile) (c : Candidate)
    (hc : c ∈ candidatesOfSig fs sf) :
    c.artifactPath = strDropRight sf.path 4
    ∧ c.fileName = basename (strDropRight sf.path 4) := by
  unfold candidatesOfSig at hc
  cases hf : findFile fs (strDropRight sf.path 4) with
  | none => simp [hf] at hc
  | some f =>
    simp only [hf] at hc
    by_cases ht : (detectTargets (strToLower (basename (strDropRight sf.path 4)))).isEmpty
    · simp [ht] at hc
    · simp only [ht, ite_false, Bool.false_eq_true] at hc
      by_cases hs : strTrim sf.content = ""
      · simp [hs] at hc
      · simp only [hs, ite_false] at hc
        obtain ⟨t, _, heq⟩ := List.mem_map.mp hc
        rw [← heq]
        exact ⟨rfl, rfl⟩

theorem foldl_insert_pred (P : Candidate → Prop) (cands : List Candidate) :
    ∀ m, (∀ p ∈ m, P (Prod.snd p)) → (∀ c ∈ cands, P c) →
      ∀ p ∈ cands.foldl (fun m c => insertBest m c.target c) m, P (Prod.snd p) := by
  induction cands with
  | nil => intro m hm _ p hp; exact hm p hp
  | cons c cs ih =>
    intro m hm hc p hp
    simp only [List.foldl_cons] at hp
    refine ih _ ?_ (fun c' hc' => hc c' (List.mem_cons_of_mem _ hc')) p hp
    intro q hq
    rcases mem_insertBest m c.target c q hq with h | h
    · rw [h]
      exact hc c (List.mem_cons_self _ _)
    · exact hm q h

theorem allCandidates_goodCand (fs : List FsFile) :
    ∀ c ∈ allCandidates fs, GoodCand fs c := by
  intro c hc
  obtain ⟨sf, hsf, hcc⟩ := List.mem_flatMap.mp hc
  have hmem := List.mem_filter.mp hsf
  obtain ⟨hsig, hne, hfound⟩ := candidatesOfSig_mem fs sf c hcc
  obtain ⟨hart, hfn⟩ := candidatesOfSig_fields fs sf c hcc
  refine ⟨sf, hmem.1, ?_, hmem.2, ?_, ?_, hsig, hne⟩
  · rw [hart]
    exact (dropRight_append_sig sf.path hmem.2).symm
  · rw [hart]
    exact hfound
  · rw [hart]
    exact hfn

/-- C9: every platforms entry comes from a retained candidate whose
signature is the trimmed, non-empty content of that candidate's OWN sidecar
(the file at `artifactPath ++ ".sig"`), and whose url is built from the same
candidate's fileName, the basename of that artifact. -/
theorem platform_signature_trimmed (fs : List FsFile) (repo tag : String) :
    ∀ t pe, (t, pe) ∈ platformsOf (bestByTarget fs) repo tag →
      ∃ c : Candidate, (t, c) ∈ bestByTarget fs
        ∧ pe = platformEntryOf repo tag c
        ∧ pe.url = assetUrl repo tag c.fileName
        ∧ ∃ sf ∈ fs, sf.path = c.artifactPath ++ ".sig"
          ∧ (findFile fs c.artifactPath).isSome = true
          ∧ c.fileName = basename c.artifactPath
          ∧ pe.signature = strTrim sf.content
          ∧ pe.signature ≠ "" := by
  intro t pe hmem
  obtain ⟨⟨t', c⟩, hc, heq⟩ := List.mem_map.mp hmem
  have ht : t' = t := congrArg Prod.fst heq
  subst ht
  have hpe : pe = platformEntryOf repo tag c := (congrArg Prod.snd heq).symm
  have hgood : GoodCand fs c := by
    have hc' := hc
    rw [bestByTarget_eq_fold] at hc'
    exact foldl_insert_pred (GoodCand fs) (allCandidates fs) [] (by simp)
      (allCandidates_goodCand fs) (t', c) hc'
  obtain ⟨sf, hsf, hpath, _, hfound, hfn, hsig, hne⟩ := hgood
  refine ⟨c, hc, hpe, by simp [hpe, platformEntryOf], sf, hsf, hpath, hfound, hfn, ?_, ?_⟩
  · rw [hpe]
    exact hsig
  · rw [hpe]
    exact hne

/-- C9 witness at a concrete tree. -/
theorem platform_signature_trimmed_witness :
    ∃ c : Candidate,
      ("windows-x86_64", c) ∈ bestByTarget [⟨"a/App.msi", "x"⟩, ⟨"a/App.msi.sig", " S "⟩]
      ∧ PlatformEntry.mk "S" (assetUrl "o/r" "v1" "App.msi")
          = platformEntryOf "o/r" "v1" c
      ∧ (PlatformEntry.mk "S" (assetUrl "o/r" "v1" "App.msi")).url
          = assetUrl "o/r" "v1" c.fileName
      ∧ ∃ sf ∈ [FsFile.mk "a/App.msi" "x", FsFile.mk "a/App.msi.sig" " S "],
          sf.path = c.artifactPath ++ ".sig"
          ∧ (findFile [⟨"a/App.msi", "x"⟩, ⟨"a/App.msi.sig", " S "⟩] c.artifactPath).isSome = true
          ∧ c.fileName = basename c.artifactPath
          ∧ (PlatformEntry.mk "S" (assetUrl "o/r" "v1" "App.msi")).signature = strTrim sf.content
          ∧ (PlatformEntry.mk "S" (assetUrl "o/r" "v1" "App.msi")).signature ≠ "" :=
  platform_signature_trimmed [⟨"a/App.msi", "x"⟩, ⟨"a/App.msi.sig", " S "⟩] "o/r" "v1"
    "windows-x86_64" (PlatformEntry.mk "S" (assetUrl "o/r" "v1" "App.msi")) (by decide)

/-- C5 -/
theorem empty_scan_fatal (now : String) (fs : List FsFile) (tag repo : String) :
    (bestByTarget fs = [] ↔ generateManifest now fs tag repo = .error noArtifactsMsg)
    ∧ (∀ m, generateManifest now fs tag repo = .ok m → m.platforms ≠ []) := by
  unfold generateManifest
  by_cases h : (bestByTarget fs).isEmpty
  · have hb : bestByTarget fs = [] := by
      cases hx : bestByTarget fs
      · rfl
      · rw [hx] at h; cases h
    simp [h, hb]
  · have hb : bestByTarget fs ≠ [] := by
      intro hc
      rw [hc] at h
      exact h rfl
    refine ⟨⟨fun hc => absurd hc hb, fun hc => ?_⟩, fun m hm => ?_⟩
    · simp [h] at hc
    · simp only [h, Bool.false_eq_true, ite_false, Except.ok.injEq] at hm
      rw [← hm]
      simp only [platformsOf, ne_eq, List.map_eq_nil_iff]
      exact hb

/-- C5 witness -/
theorem empty_scan_fatal_witness :
    generateManifest "2026-01-01T00:00:00.000Z" [FsFile.mk "a/readme.txt" "hi"] "v1.2.3" "o/r"
      = .error noArtifactsMsg :=
  (empty_scan_fatal "2026-01-01T00:00:00.000Z" [⟨"a/readme.txt", "hi"⟩] "v1.2.3" "o/r").1.mp
    (by decide)

/-- C7 counterexample -/
theorem build_cleanup_counterexample :
    exceptIsOk (mainBuild ⟨false, true, true, false, false⟩).1 = false
    ∧ (mainBuild ⟨false, true, true, false, false⟩).2.verifyCopyCreated = true
    ∧ (mainBuild ⟨false, true, true, false, false⟩).2.verifyCopyRemoved = false
    ∧ (mainBuild ⟨false, true, true, false, false⟩).2.tempDirCreated = true
    ∧ (mainBuild ⟨false, true, true, false, false⟩).2.tempDirRemoved = false := by
  decide

/-- C7 amended -/
theorem build_cleanup_success_only (env : BuildEnv) :
    (env.skipBundlePrep = false → exceptIsOk (mainBuild env).1 = true →
      (mainBuild env).2.tempDirRemoved = true
      ∧ (mainBuild env).2.packedCleanupRan = true
      ∧ ((mainBuild env).2.verifyCopyCreated = true →
          (mainBuild env).2.verifyCopyRemoved = true))
    ∧ (exceptIsOk (mainBuild env).1 = false →
      (mainBuild env).2.tempDirRemoved = false
      ∧ (mainBuild env).2.verifyCopyRemoved = false)
    ∧ (env.skipBundlePrep = false → env.packOk = true → env.runtimeOk = false →
      (mainBuild env).2.packedCleanupRan = false
      ∧ (mainBuild env).2.tempDirCreated = true) := by
  obtain ⟨a, b, c, d, e⟩ := env
  cases a <;> cases b <;> cases c <;> cases d <;> cases e <;> decide

/-- C7 amended witness -/
theorem build_cleanup_success_only_witness :
    ((mainBuild ⟨false, true, true, false, true⟩).2.tempDirRemoved = true
      ∧ (mainBuild ⟨false, true, true, false, true⟩).2.packedCleanupRan = true)
    ∧ ((mainBuild ⟨false, true, false, false, true⟩).2.packedCleanupRan = false
      ∧ (mainBuild ⟨false, true, false, false, true⟩).2.tempDirCreated = true) :=
  ⟨⟨((build_cleanup_success_only ⟨false, true, true, false, true⟩).1 rfl rfl).1,
    ((build_cleanup_success_only ⟨false, true, true, false, true⟩).1 rfl rfl).2.1⟩,
   (build_cleanup_success_only ⟨false, true, false, false, true⟩).2.2 rfl rfl rfl⟩

theorem waitLoop_never_ok (ok : Nat → Bool) (dur : Nat → Nat) (h : ∀ i, ok i = false) :
    ∀ dl now i, waitLoop ok dur dl now i = false := by
  intro dl
  have key : ∀ fuel now i, dl - now ≤ fuel → waitLoop ok dur dl now i = false := by
    intro fuel
    induction fuel with
    | zero =>
      intro now i hle
      rw [waitLoop]
      have hge : ¬ now < dl := by omega
      simp [hge]
    | succ n ih =>
      intro now i hle
      rw [waitLoop]
      by_cases hlt : now < dl
      · simp [hlt, h i]
        exact ih _ _ (by omega)
      · simp [hlt]
  intro now i
  exact key (dl - now) now i (le_refl _)

theorem waitLoop_success (ok : Nat → Bool) (dur : Nat → Nat) :
    ∀ dl now i, waitLoop ok dur dl now i = true →
      ∃ j, i ≤ j ∧ ok j = true ∧ now + (j - i) * 1000 < dl := by
  intro dl
  have key : ∀ fuel now i, dl - now ≤ fuel → waitLoop ok dur dl now i = true →
      ∃ j, i ≤ j ∧ ok j = true ∧ now + (j - i) * 1000 < dl := by
    intro fuel
    induction fuel with
    | zero =>
      intro now i hle hw
      rw [waitLoop] at hw
      have hge : ¬ now < dl := by omega
      simp [hge] at hw
    | succ n ih =>
      intro now i hle hw
      rw [waitLoop] at hw
      by_cases hlt : now < dl
      · simp only [hlt, if_pos, ite_true] at hw
        by_cases hok : ok i = true
        · exact ⟨i, le_refl _, hok, by omega⟩
        · rw [Bool.not_eq_true] at hok
          simp only [hok, Bool.false_eq_true, ite_false] at hw
          obtain ⟨j, hij, hokj, hj⟩ := ih _ _ (by omega) hw
          exact ⟨j, by omega, hokj, by omega⟩
      · simp [hlt] at hw
  intro now i
  exact key (dl - now) now i (le_refl _)

/-- C8 counterexample -/
theorem validator_cleanup_counterexample :
    exceptIsOk (mainValidator ⟨true, true, true, false, true, false, true,
      fun _ => true, fun _ => 0⟩).1 = false
    ∧ (mainValidator ⟨true, true, true, false, true, false, true,
        fun _ => true, fun _ => 0⟩).2.tempCreated = true
    ∧ (mainValidator ⟨true, true, true, false, true, false, true,
        fun _ => true, fun _ => 0⟩).2.tempRemoved = false := by
  refine ⟨rfl, rfl, rfl⟩

/-- C8 amended -/
theorem validator_cleanup_after_spawn (env : ValidatorEnv) :
    (env.authOk = true → env.toolsOk = true → env.installOk = true → env.setupOk = true →
      (env.onboardOk || (env.onboardInteractiveReject && env.onboardFallbackOk)) = true →
      (mainValidator env).2.gatewaySpawned = true
      ∧ (mainValidator env).2.gatewayKilled = true
      ∧ (mainValidator env).2.tempRemoved = true
      ∧ (waitForHttp env.pollOk env.pollDur 90000 = false →
          exceptIsOk (mainValidator env).1 = false))
    ∧ ((∀ i, env.pollOk i = false) → waitForHttp env.pollOk env.pollDur 90000 = false)
    ∧ (waitForHttp env.pollOk env.pollDur 90000 = true →
        ∃ j, j < 90 ∧ env.pollOk j = true) := by
  refine ⟨?_, ?_, ?_⟩
  · intro h1 h2 h3 h4 h5
    simp only [mainValidator, h1, h2, h3, h4, h5, Bool.not_true, Bool.false_eq_true,
      ite_false]
    cases hw : waitForHttp env.pollOk env.pollDur 90000 <;>
      simp [hw, exceptIsOk]
  · intro h
    exact waitLoop_never_ok env.pollOk env.pollDur h 90000 0 0
  · intro h
    obtain ⟨j, _, hok, hj⟩ := waitLoop_success env.pollOk env.pollDur 90000 0 0 h
    exact ⟨j, by omega, hok⟩

/-- C8 amended witness -/
theorem validator_cleanup_after_spawn_witness :
    (mainValidator ⟨true, true, true, true, true, false, false,
      fun _ => false, fun _ => 0⟩).2.gatewayKilled = true
    ∧ (mainValidator ⟨true, true, true, true, true, false, false,
        fun _ => false, fun _ => 0⟩).2.tempRemoved = true
    ∧ exceptIsOk (mainValidator ⟨true, true, true, true, true, false, false,
        fun _ => false, fun _ => 0⟩).1 = false :=
  ⟨((validator_cleanup_after_spawn ⟨true, true, true, true, true, false, false,
      fun _ => false, fun _ => 0⟩).1 rfl rfl rfl rfl rfl).2.1,
   ((validator_cleanup_after_spawn ⟨true, true, true, true, true, false, false,
      fun _ => false, fun _ => 0⟩).1 rfl rfl rfl rfl rfl).2.2.1,
   ((validator_cleanup_after_spawn ⟨true, true, true, true, true, false, false,
      fun _ => false, fun _ => 0⟩).1 rfl rfl rfl rfl rfl).2.2.2
     ((validator_cleanup_after_spawn ⟨true, true, true, true, true, false, false,
        fun _ => false, fun _ => 0⟩).2.1 (fun _ => rfl))⟩

end OpenclawDesktop
